import Mathlib

/-!
Verification of the meson-structure event-aggregation and binning utilities.

This file gives a shallow embedding, in Lean 4, of the recurring algorithms of
the `meson-structure` analysis repository and proves (or refutes) the spec's
claims about them:

* the unique-event-ID CSV aggregator
  (`concat_csvs_with_unique_events` in `analysis/acceptance/aa_helpers.py`,
  `csv_convert/open_multiple_example.py`,
  `analysis/csv_reco_dis_analysis/csv_reco_dis_analysis.py`, and the variant
  `load_csv_with_unique_events` / `load_file_pairs` in `tools/csv_b2root.py`);
* the binned efficiency computation (`efficiency_vs_energy` in
  `analysis/multicalo-lambda/studies_lambda.py`);
* the ragged broadcast-and-flatten step and finite-value masking
  (`plot_nlambda_vs_kinematics_all` in `studies_lambda.py`,
  `plot_relerr_kaon_sf_xK_Q2` in `studies_kaon_sf.py`);
* the migration-matrix column normalization (`plot_relerr_kaon_sf_xK_Q2`).

Machine floats are modelled exactly where the programs only perform exact
operations on small integers and ratios: event IDs are `Int`, a possibly-NaN
float value is `Option Int` (or `Option ℚ`), with `none` standing for NaN
(or any non-finite value).  This matters because pandas' `Series.max()` on an
empty column returns NaN, and `NaN + 1 = NaN` then poisons every subsequent
event ID — behaviour the embedding reproduces faithfully.
-/

namespace MesonStructure

/-- pandas `Series.max()` (with the default `skipna=True`) applied to a column
of valid integers: `none` (NaN) on an empty column, the maximum otherwise. -/
def pdMax : List Int → Option Int
  | [] => none
  | x :: xs =>
    match pdMax xs with
    | none => some x
    | some m => some (max x m)

/-- One file's rewritten event-ID column: `df['event'] = df['event'] + offset`.
The running `offset` is `Option Int` because it becomes NaN (`none`) once an
empty file has been merged; adding NaN to an integer column yields NaN in
every row, exactly as pandas does. -/
def shiftIds (off : Option Int) (ids : List Int) : List (Option Int) :=
  ids.map fun i => off.map fun o => o + i

/-- The update `offset = df['event'].max() + 1` after the rewrite: `none` if the previous
offset was already NaN or the file was empty (max of an empty / all-NaN column
is NaN, and `NaN + 1 = NaN`). -/
def nextOffset (off : Option Int) (ids : List Int) : Option Int :=
  off.bind fun o => (pdMax (ids.map fun i => o + i)).map fun m => m + 1

/-- The per-file loop of `concat_csvs_with_unique_events`
(`aa_helpers.py` lines 166–188, identically in `open_multiple_example.py` and
`csv_reco_dis_analysis.py`): each file's ID column is shifted by the running
offset, which is then advanced to `max(shifted) + 1`.  The result lists each
file's contribution to the concatenated table (the final `pd.concat` is their
concatenation, preserving file order and intra-file row order). -/
def concatGo : Option Int → List (List Int) → List (List (Option Int))
  | _, [] => []
  | off, f :: fs => shiftIds off f :: concatGo (nextOffset off f) fs

/-- A CSV file as seen by `concat_csvs_with_unique_events` in `aa_helpers.py`:
reading may raise (`FileNotFoundError` or any other exception, both re-raised),
the `event` column may be missing (raises `ValueError`), or the file parses to
a table whose `event` column holds the listed integers. -/
inductive AAFile where
  | readError : AAFile
  | noEventColumn : AAFile
  | table : List Int → AAFile
deriving DecidableEq, Repr

/-- The loop body of `aa_helpers.concat_csvs_with_unique_events` over a file
list: an unreadable file or a file without an `event` column raises, aborting
the whole aggregation (`Except.error`); a readable table is shifted and the
offset advanced as in `concatGo`. -/
def concatCsvsGo : Option Int → List AAFile → Except Unit (List (List (Option Int)))
  | _, [] => Except.ok []
  | _, AAFile.readError :: _ => Except.error ()
  | _, AAFile.noEventColumn :: _ => Except.error ()
  | off, AAFile.table ids :: fs =>
    (concatCsvsGo (nextOffset off ids) fs).map fun rest => shiftIds off ids :: rest

/-- The function `concat_csvs_with_unique_events(files)` from
`analysis/acceptance/aa_helpers.py` (lines 131–191): raises `ValueError` on an
empty input list, otherwise runs the rewrite loop from offset 0 and returns
the per-file contributions to the concatenated table. -/
def concat_csvs_with_unique_events (files : List AAFile) : Except Unit (List (List (Option Int))) :=
  if files.isEmpty then Except.error () else concatCsvsGo (some 0) files

/-- Strict order on possibly-NaN event IDs, with IEEE semantics: any
comparison involving NaN is false. -/
def optLt (a b : Option Int) : Bool :=
  match a, b with
  | some x, some y => decide (x < y)
  | _, _ => false

/-- A CSV file as seen by `load_csv_with_unique_events` in
`tools/csv_b2root.py`: reading may throw (caught: logged and skipped), the
`evt`/`event` column may be absent from a non-empty table (warned and
skipped), or the file parses to a table whose ID column holds the listed
integers (an empty list is an empty table, `df.empty`). -/
inductive CsvFile where
  | readError : CsvFile
  | noIdColumn : CsvFile
  | table : List Int → CsvFile
deriving DecidableEq, Repr

/-- The function `load_csv_with_unique_events(filepath, key_column, offset)` from
`tools/csv_b2root.py` (lines 148–186): returns the shifted table and the new
offset; an unreadable file, a missing key column, and an empty table each
yield an empty contribution with the offset unchanged. -/
def load_csv_with_unique_events : CsvFile → Int → List Int × Int
  | CsvFile.readError, off => ([], off)
  | CsvFile.noIdColumn, off => ([], off)
  | CsvFile.table ids, off =>
    match pdMax (ids.map fun i => i + off) with
    | none => ([], off)
    | some m => (ids.map fun i => i + off, m + 1)

/-- One stream of `load_file_pairs` from `tools/csv_b2root.py` (lines
189–218; the `mc` and `reco` streams are processed independently with the same
code): files are loaded in order with a running offset and only non-empty
contributions are appended before the final `pd.concat`. -/
def load_file_pairs : List CsvFile → Int → List (List Int) × Int
  | [], off => ([], off)
  | f :: fs, off =>
    let r := load_csv_with_unique_events f off
    let rest := load_file_pairs fs r.2
    (if r.1.isEmpty then rest.1 else r.1 :: rest.1, rest.2)

/-- Strict domination between two files' contributions: every ID contributed
by the first file is strictly below every ID contributed by the second.  This
is the property `max(IDs of A) < min(IDs of B)` stated elementwise (the two
are equivalent for non-empty contributions, and the elementwise form also
covers NaN entries, on which every comparison is false). -/
def contribLt (A B : List (Option Int)) : Prop :=
  ∀ a ∈ A, ∀ b ∈ B, optLt a b = true

instance (A B : List (Option Int)) : Decidable (contribLt A B) :=
  inferInstanceAs (Decidable (∀ a ∈ A, ∀ b ∈ B, optLt a b = true))

/-- Cross-file distinctness of event IDs: no ID of the first file's
contribution reappears in the second file's contribution. -/
def contribNe (A B : List (Option Int)) : Prop :=
  ∀ a ∈ A, ∀ b ∈ B, a ≠ b

instance (A B : List (Option Int)) : Decidable (contribNe A B) :=
  inferInstanceAs (Decidable (∀ a ∈ A, ∀ b ∈ B, a ≠ b))

lemma contribLt_imp_ne {A B : List (Option Int)} (h : contribLt A B) : contribNe A B := by
  intro a ha b hb
  have hlt := h a ha b hb
  cases a <;> cases b <;> simp [optLt] at hlt ⊢
  omega

lemma pdMax_isSome (l : List Int) (h : l ≠ []) : ∃ m, pdMax l = some m := by
  cases l with
  | nil => exact absurd rfl h
  | cons x xs =>
    cases hx : pdMax xs with
    | none => exact ⟨x, by simp [pdMax, hx]⟩
    | some m => exact ⟨max x m, by simp [pdMax, hx]⟩

lemma le_pdMax (l : List Int) (m : Int) (hm : pdMax l = some m) :
    ∀ x ∈ l, x ≤ m := by
  induction l generalizing m with
  | nil => intro x hx; simp at hx
  | cons a l ih =>
    intro x hx
    rcases List.mem_cons.mp hx with rfl | hx'
    · cases hl : pdMax l with
      | none => simp only [pdMax, hl, Option.some.injEq] at hm; omega
      | some m' =>
        simp only [pdMax, hl, Option.some.injEq] at hm
        exact hm ▸ le_max_left x m'
    · cases hl : pdMax l with
      | none =>
        cases l with
        | nil => simp at hx'
        | cons b l' =>
          simp only [pdMax] at hl
          cases h2 : pdMax l' <;> simp [h2] at hl
      | some m' =>
        simp only [pdMax, hl, Option.some.injEq] at hm
        have h1 := ih m' hl x hx'
        exact hm ▸ le_trans h1 (le_max_right a m')

/-- Main invariant of the ID-rewrite loop: starting from a valid offset `o`,
if every file is non-empty and all local IDs are non-negative then every
emitted ID is a valid integer at least `o`, and the files' contributions are
pairwise strictly increasing. -/
lemma concatGo_chain (fs : List (List Int)) :
    ∀ o : Int, (∀ f ∈ fs, f ≠ []) → (∀ f ∈ fs, ∀ i ∈ f, 0 ≤ i) →
    (∀ c ∈ concatGo (some o) fs, ∀ v ∈ c, ∃ x, v = some x ∧ o ≤ x) ∧
    List.Pairwise contribLt (concatGo (some o) fs) := by
  induction fs with
  | nil =>
    intro o _ _
    exact ⟨fun c hc => by simp [concatGo] at hc, by simp [concatGo]⟩
  | cons f fs ih =>
    intro o hne hnn
    have hf_ne : f ≠ [] := hne f (List.mem_cons_self _ _)
    have hf_nn : ∀ i ∈ f, 0 ≤ i := hnn f (List.mem_cons_self _ _)
    have hmap_ne : f.map (fun i => o + i) ≠ [] := by
      simpa using hf_ne
    obtain ⟨m, hm⟩ := pdMax_isSome _ hmap_ne
    have hbound : ∀ i ∈ f, o + i ≤ m := fun i hi =>
      le_pdMax _ m hm _ (List.mem_map_of_mem _ hi)
    have hoff : nextOffset (some o) f = some (m + 1) := by
      simp [nextOffset, hm]
    have holt : o < m + 1 := by
      obtain ⟨i, hi⟩ := List.exists_mem_of_ne_nil f hf_ne
      have h1 := hbound i hi
      have h2 := hf_nn i hi
      omega
    have ih' := ih (m + 1) (fun g hg => hne g (List.mem_cons_of_mem _ hg))
      (fun g hg => hnn g (List.mem_cons_of_mem _ hg))
    constructor
    · intro c hc v hv
      rw [concatGo] at hc
      rcases List.mem_cons.mp hc with rfl | hc'
      · rcases List.mem_map.mp hv with ⟨i, hi, rfl⟩
        exact ⟨o + i, rfl, by have := hf_nn i hi; omega⟩
      · rw [hoff] at hc'
        obtain ⟨x, hx, hge⟩ := ih'.1 c hc' v hv
        exact ⟨x, hx, by omega⟩
    · rw [concatGo, hoff]
      refine List.Pairwise.cons ?_ ih'.2
      intro B hB a ha b hb
      rcases List.mem_map.mp ha with ⟨i, hi, rfl⟩
      obtain ⟨y, hy, hgey⟩ := ih'.1 B hB b hb
      subst hy
      have h1 : o + i ≤ m := hbound i hi
      simp only [Option.map_some', optLt, decide_eq_true_eq]
      omega

/-- On a list of readable tables, `concat_csvs_with_unique_events` never
raises, and its contributions are those of the rewrite loop `concatGo`. -/
lemma concatCsvsGo_tables (fs : List (List Int)) :
    ∀ off, concatCsvsGo off (fs.map AAFile.table) = Except.ok (concatGo off fs) := by
  induction fs with
  | nil => intro off; rfl
  | cons f fs ih => intro off; simp [concatCsvsGo, concatGo, ih, Except.map]

/-- Skipped files (those whose load returns an empty contribution and an
unchanged offset) are invisible to `load_file_pairs`: the merged table and the
final offset are as if the file were absent from the list. -/
lemma load_file_pairs_skip (f : CsvFile)
    (hf : ∀ off, load_csv_with_unique_events f off = ([], off)) :
    ∀ (xs ys : List CsvFile) (off : Int),
      load_file_pairs (xs ++ f :: ys) off = load_file_pairs (xs ++ ys) off := by
  intro xs
  induction xs with
  | nil => intro ys off; simp [load_file_pairs, hf off]
  | cons g xs ih => intro ys off; simp [load_file_pairs, ih]

/-- C1 (counterexample): as stated, the invariant fails on event tables with
a negative local ID and on lists containing an empty table.  With files
`[0]` and `[-1]`, both files contribute the ID `0` (duplicate across files,
and `max` of the first contribution is not `<` `min` of the second).  With
files `[0]`, `[]`, `[0]`, the empty file sets the offset to NaN, so the third
file's ID becomes NaN and is not above the first file's IDs. -/
theorem claim_c1_counterexample :
    concatGo (some 0) [[0], [-1]] = [[some 0], [some 0]] ∧
    ¬ List.Pairwise contribLt (concatGo (some 0) [[0], [-1]]) ∧
    ¬ List.Pairwise contribNe (concatGo (some 0) [[0], [-1]]) ∧
    concatGo (some 0) [[0], [], [0]] = [[some 0], [], [none]] ∧
    ¬ List.Pairwise contribLt (concatGo (some 0) [[0], [], [0]]) := by
  decide

/-- C1 (amended): for every non-empty ordered list of non-empty event tables
whose local IDs are all non-negative, `concat_csvs_with_unique_events`
succeeds, the contributions of distinct files are pairwise strictly
increasing (so `max` of an earlier file's contribution is `<` `min` of a
later one's), and no event ID occurs in two different files' contributions. -/
theorem concat_unique_events_ordered (files : List (List Int)) (h0 : files ≠ [])
    (hne : ∀ f ∈ files, f ≠ []) (hnn : ∀ f ∈ files, ∀ i ∈ f, 0 ≤ i) :
    concat_csvs_with_unique_events (files.map AAFile.table) =
      Except.ok (concatGo (some 0) files) ∧
    List.Pairwise contribLt (concatGo (some 0) files) ∧
    List.Pairwise contribNe (concatGo (some 0) files) := by
  have hchain := concatGo_chain files 0 hne hnn
  refine ⟨?_, hchain.2, hchain.2.imp (fun h => contribLt_imp_ne h)⟩
  have hne' : (files.map AAFile.table).isEmpty = false := by
    cases files with
    | nil => exact absurd rfl h0
    | cons a l => rfl
  simp [concat_csvs_with_unique_events, hne', concatCsvsGo_tables]

theorem concat_unique_events_ordered_witness :
    ([[0, 1], [0]] : List (List Int)) ≠ [] ∧
    List.Pairwise contribLt (concatGo (some 0) [[0, 1], [0]]) :=
  ⟨by decide,
    (concat_unique_events_ordered [[0, 1], [0]] (by decide) (by decide) (by decide)).2.1⟩

/-- C2 (counterexample): aggregating the event columns `[0,1,2]`, `[0,1]`,
`[0,1,1]` rewrites the third file to `[5,6,6]`, not to the `[5,5]` the spec
scenario states. -/
theorem claim_c2_counterexample :
    concat_csvs_with_unique_events
        [AAFile.table [0, 1, 2], AAFile.table [0, 1], AAFile.table [0, 1, 1]] =
      Except.ok [[some 0, some 1, some 2], [some 3, some 4], [some 5, some 6, some 6]] ∧
    concat_csvs_with_unique_events
        [AAFile.table [0, 1, 2], AAFile.table [0, 1], AAFile.table [0, 1, 1]] ≠
      Except.ok [[some 0, some 1, some 2], [some 3, some 4], [some 5, some 5]] := by
  refine ⟨rfl, ?_⟩
  intro h
  simp only [concat_csvs_with_unique_events, concatCsvsGo, concatGo, shiftIds, nextOffset,
    pdMax, Except.map] at h
  simp at h

/-- C2 (amended): aggregating three files with event columns `[0,1,2]`,
`[0,1]`, `[0,1,1]` in that order rewrites them to `[0,1,2]`, `[3,4]` and
`[5,6,6]`: the duplicated local ID `1` of the third file is preserved as the
duplicated global ID `6` — the aggregator never deduplicates within a file. -/
theorem concat_three_files_ids :
    concat_csvs_with_unique_events
        [AAFile.table [0, 1, 2], AAFile.table [0, 1], AAFile.table [0, 1, 1]] =
      Except.ok [[some 0, some 1, some 2], [some 3, some 4], [some 5, some 6, some 6]] := rfl

/-- C9 (counterexample): the per-file reading of the claim fails — a file with
only non-negative local IDs need not land above all earlier IDs if an earlier
file had negative IDs (third file of `[[5], [-10], [0]]` contributes `-3`,
below the first file's `5`) or if an earlier file was empty (third file of
`[[1], [], [2]]` contributes NaN). -/
theorem claim_c9_counterexample :
    concatGo (some 0) [[5], [-10], [0]] = [[some 5], [some (-4)], [some (-3)]] ∧
    optLt (some 5) (some (-3)) = false ∧
    concatGo (some 0) [[1], [], [2]] = [[some 1], [], [none]] ∧
    optLt (some 1) none = false := by
  decide

/-- C9 (amended): the offset is advanced to `max(rewritten IDs) + 1` only, so
when every file in the list is non-empty with only non-negative local IDs the
contributions are pairwise strictly increasing (each file starts strictly
above all earlier IDs); but for an input list containing a file with a
negative local ID the merged table can contain the same ID in two different
files' contributions: with columns `[0,1]` and `[-2]`, both files
contribute the ID `0`. -/
theorem offset_advance_precondition :
    (∀ files : List (List Int), (∀ f ∈ files, f ≠ []) →
      (∀ f ∈ files, ∀ i ∈ f, 0 ≤ i) →
      List.Pairwise contribLt (concatGo (some 0) files)) ∧
    concatGo (some 0) [[0, 1], [-2]] = [[some 0, some 1], [some 0]] :=
  ⟨fun files hne hnn => (concatGo_chain files 0 hne hnn).2, by decide⟩

theorem offset_advance_precondition_witness :
    List.Pairwise contribLt (concatGo (some 0) [[2], [0]]) :=
  offset_advance_precondition.1 [[2], [0]] (by decide) (by decide)

/-- C5 (counterexample): in `aa_helpers.concat_csvs_with_unique_events` a file
without an `event` column, or an unreadable file, raises and aborts the whole
aggregation instead of being skipped. -/
theorem claim_c5_counterexample :
    concat_csvs_with_unique_events
        [AAFile.table [0, 1], AAFile.noEventColumn, AAFile.table [0]] =
      Except.error () ∧
    concat_csvs_with_unique_events [AAFile.table [0, 1], AAFile.readError] =
      Except.error () := ⟨rfl, rfl⟩

/-- C5 (amended): in `tools/csv_b2root.py`, an unreadable file and a file
missing the ID column are skipped non-fatally by `load_csv_with_unique_events`
(empty contribution, offset unchanged) and `load_file_pairs` produces exactly
the result it would produce without that file; but in
`aa_helpers.concat_csvs_with_unique_events` such a file raises and aborts the
aggregation. -/
theorem skip_bad_files (xs ys : List CsvFile) (off : Int) :
    load_csv_with_unique_events CsvFile.readError off = ([], off) ∧
    load_csv_with_unique_events CsvFile.noIdColumn off = ([], off) ∧
    load_file_pairs (xs ++ CsvFile.readError :: ys) off = load_file_pairs (xs ++ ys) off ∧
    load_file_pairs (xs ++ CsvFile.noIdColumn :: ys) off = load_file_pairs (xs ++ ys) off :=
  ⟨rfl, rfl, load_file_pairs_skip CsvFile.readError (fun _ => rfl) xs ys off,
    load_file_pairs_skip CsvFile.noIdColumn (fun _ => rfl) xs ys off⟩

/-- C8 (counterexample): in `aa_helpers.concat_csvs_with_unique_events` an
empty file does not leave the offset unchanged: `max` of an empty column is
NaN, so the offset becomes NaN and every subsequent file's IDs become NaN —
with files `[3]`, `[]`, `[0]` the third file's ID is NaN instead of the `4`
it would receive if the empty file were absent. -/
theorem claim_c8_counterexample :
    nextOffset (some 0) [] = none ∧
    concatGo (some 0) [[3], [], [0]] = [[some 3], [], [none]] ∧
    concatGo (some 0) [[3], [0]] = [[some 3], [some 4]] := by
  decide

/-- C8 (amended): in `tools/csv_b2root.py` an empty file contributes nothing
and leaves the running offset unchanged, so `load_file_pairs` gives every
subsequent file the same IDs as if the empty file had not been in the list;
in `aa_helpers.concat_csvs_with_unique_events` an empty file instead sets the
offset to NaN. -/
theorem empty_file_frame (xs ys : List CsvFile) (off : Int) :
    load_csv_with_unique_events (CsvFile.table []) off = ([], off) ∧
    load_file_pairs (xs ++ CsvFile.table [] :: ys) off = load_file_pairs (xs ++ ys) off :=
  ⟨rfl, load_file_pairs_skip (CsvFile.table []) (fun _ => rfl) xs ys off⟩

/-- The clamp `np.clip(x, 0.0, 1.0)` on a finite value. -/
def clip01 (x : ℚ) : ℚ := min (max x 0) 1

/-- One bin of the efficiency computation in `efficiency_vs_energy`
(`analysis/multicalo-lambda/studies_lambda.py` lines 145–150): the array is
initialised to NaN (`none`), and only bins with `h_truth > 0` receive
`clip(h_reco / h_truth, 0, 1)`. -/
def effBin (truth reco : ℕ) : Option ℚ :=
  if truth = 0 then none else some (clip01 ((reco : ℚ) / (truth : ℚ)))

/-- One bin of the binomial-error computation in `efficiency_vs_energy`
(line 151), represented by the radicand of
`err = sqrt(eps * (1 - eps) / h_truth)`: the reported error is the real
square root of this value (the square root is the only operation not
representable exactly over `ℚ`, and it is monotone and total on the
non-negative radicands produced here).  Bins with `h_truth = 0` stay NaN. -/
def errSqBin (truth reco : ℕ) : Option ℚ :=
  if truth = 0 then none
  else
    some (clip01 ((reco : ℚ) / (truth : ℚ)) * (1 - clip01 ((reco : ℚ) / (truth : ℚ)))
      / (truth : ℚ))

/-- The per-bin efficiency/error arrays of `efficiency_vs_energy`
(`studies_lambda.py` lines 126–154) given the truth and reco histogram
counts: `eps` and the radicand of `err`, indexed by bin. -/
def efficiency_vs_energy {n : ℕ} (h_truth h_reco : Fin n → ℕ) :
    (Fin n → Option ℚ) × (Fin n → Option ℚ) :=
  (fun k => effBin (h_truth k) (h_reco k), fun k => errSqBin (h_truth k) (h_reco k))

lemma clip01_nonneg (x : ℚ) : 0 ≤ clip01 x := le_min (le_max_right x 0) zero_le_one

lemma clip01_le_one (x : ℚ) : clip01 x ≤ 1 := min_le_right _ _

/-- One bin of the efficiency map of `plot_relerr_kaon_sf_xK_Q2`
(`analysis/multicalo-lambda/studies_kaon_sf.py` lines 239–242): the array is
initialised with `np.zeros_like(Ngen_evt)`, bins with `Ngen_evt > 0` receive
`Nreco_lam / Ngen_evt`, and then `np.clip(eps, 0.0, 1.0)` is applied to the
whole array.  A bin with zero generated events therefore keeps the initial
`0.0` — there is no NaN fill at this site, and no binomial standard error
`sqrt(eps * (1 - eps) / N)` is computed there (the later `relerr` maps, lines
247–249, are `100 / sqrt(Nexp)` under an `Nexp > 10` guard, a different
quantity). -/
def epsKaonBin (gen reco : ℕ) : ℚ :=
  clip01 (if gen = 0 then 0 else (reco : ℚ) / (gen : ℚ))

/-- The `(xB-bin, Q2-bin)`-indexed efficiency map `eps` of
`plot_relerr_kaon_sf_xK_Q2`, built bin-by-bin from the generated-event and
selected-candidate count histograms. -/
def epsKaonMap {nB nQ : ℕ} (Ngen Nreco : Fin nB → Fin nQ → ℕ)
    (b : Fin nB) (q : Fin nQ) : ℚ :=
  epsKaonBin (Ngen b q) (Nreco b q)

/-- C3 (counterexample): at the claim's second cited site,
`plot_relerr_kaon_sf_xK_Q2`, a bin with zero generated events reports the
efficiency `0.0`, not NaN — unlike `efficiency_vs_energy`, where the same bin
stays NaN. -/
theorem claim_c3_counterexample :
    epsKaonMap (![![0]]) (![![0]]) 0 0 = 0 ∧
    (efficiency_vs_energy ![0] (![0] : Fin 1 → ℕ)).1 0 = none := by
  decide

/-- C3 (amended): in `efficiency_vs_energy` (`studies_lambda.py`), a bin with
zero generated (truth) count reports NaN efficiency and NaN error, and a bin
with positive generated count reports an efficiency in `[0, 1]` (after
clipping, whatever the raw selected count) together with the binomial
standard error `sqrt(eps * (1 - eps) / N)` with `N` the bin's generated count
(stated via its radicand, of which the reported error is the real square
root); in `plot_relerr_kaon_sf_xK_Q2` (`studies_kaon_sf.py`), a bin with zero
generated events instead reports the efficiency `0.0`, a bin with positive
generated count reports `clip(selected / generated, 0, 1)` in `[0, 1]`, and
no binomial standard error is computed at that site. -/
theorem efficiency_two_sites {n nB nQ : ℕ} (h_truth h_reco : Fin n → ℕ) (k : Fin n)
    (Ngen Nreco : Fin nB → Fin nQ → ℕ) (b : Fin nB) (q : Fin nQ) :
    (h_truth k = 0 →
      (efficiency_vs_energy h_truth h_reco).1 k = none ∧
      (efficiency_vs_energy h_truth h_reco).2 k = none) ∧
    (0 < h_truth k →
      ∃ e, (efficiency_vs_energy h_truth h_reco).1 k = some e ∧
        0 ≤ e ∧ e ≤ 1 ∧
        (efficiency_vs_energy h_truth h_reco).2 k
          = some (e * (1 - e) / (h_truth k : ℚ))) ∧
    (Ngen b q = 0 → epsKaonMap Ngen Nreco b q = 0) ∧
    (0 < Ngen b q →
      epsKaonMap Ngen Nreco b q = clip01 ((Nreco b q : ℚ) / (Ngen b q : ℚ)) ∧
      0 ≤ epsKaonMap Ngen Nreco b q ∧ epsKaonMap Ngen Nreco b q ≤ 1) := by
  refine ⟨?_, ?_, ?_, ?_⟩
  · intro h0
    exact ⟨by simp [efficiency_vs_energy, effBin, h0], by simp [efficiency_vs_energy, errSqBin, h0]⟩
  · intro hpos
    have h0 : ¬ h_truth k = 0 := by omega
    exact ⟨clip01 ((h_reco k : ℚ) / (h_truth k : ℚ)),
      by simp [efficiency_vs_energy, effBin, h0],
      clip01_nonneg _, clip01_le_one _,
      by simp [efficiency_vs_energy, errSqBin, h0]⟩
  · intro h0
    simp [epsKaonMap, epsKaonBin, clip01, h0]
  · intro hpos
    have h0 : ¬ Ngen b q = 0 := by omega
    exact ⟨by simp [epsKaonMap, epsKaonBin, h0], clip01_nonneg _, clip01_le_one _⟩

theorem efficiency_two_sites_witness :
    0 < (![10, 0, 5] : Fin 3 → ℕ) 0 ∧
    0 < (![![4]] : Fin 1 → Fin 1 → ℕ) 0 0 ∧
    (∃ e, (efficiency_vs_energy ![10, 0, 5] ![3, 0, 5]).1 0 = some e ∧
      0 ≤ e ∧ e ≤ 1 ∧
      (efficiency_vs_energy ![10, 0, 5] ![3, 0, 5]).2 0
        = some (e * (1 - e) / ((![10, 0, 5] : Fin 3 → ℕ) 0 : ℚ))) ∧
    (epsKaonMap ![![4]] ![![1]] 0 0
        = clip01 (((![![1]] : Fin 1 → Fin 1 → ℕ) 0 0 : ℚ)
          / ((![![4]] : Fin 1 → Fin 1 → ℕ) 0 0 : ℚ)) ∧
      0 ≤ epsKaonMap ![![4]] ![![1]] 0 0 ∧ epsKaonMap ![![4]] ![![1]] 0 0 ≤ 1) :=
  ⟨by decide, by decide,
    (efficiency_two_sites ![10, 0, 5] ![3, 0, 5] 0 (![![4]]) (![![1]]) 0 0).2.1 (by decide),
    (efficiency_two_sites ![10, 0, 5] ![3, 0, 5] 0 (![![4]]) (![![1]]) 0 0).2.2.2 (by decide)⟩

/-- C10: because the efficiency is clipped to `[0, 1]` before the error
formula is evaluated, every bin with positive truth count has a non-negative
error radicand (`eps * (1 - eps) / N ≥ 0`, so the reported
`sqrt`-error is a finite, non-negative real and `np.sqrt` never sees a
negative argument), and every bin with zero truth count reports NaN for both
the efficiency and the error. -/
theorem error_radicand_nonneg {n : ℕ} (h_truth h_reco : Fin n → ℕ) (k : Fin n) :
    (0 < h_truth k →
      ∃ q, (efficiency_vs_energy h_truth h_reco).2 k = some q ∧ 0 ≤ q) ∧
    (h_truth k = 0 →
      (efficiency_vs_energy h_truth h_reco).1 k = none ∧
      (efficiency_vs_energy h_truth h_reco).2 k = none) := by
  constructor
  · intro hpos
    have h0 : ¬ h_truth k = 0 := by omega
    refine ⟨clip01 ((h_reco k : ℚ) / (h_truth k : ℚ))
        * (1 - clip01 ((h_reco k : ℚ) / (h_truth k : ℚ))) / (h_truth k : ℚ),
      by simp [efficiency_vs_energy, errSqBin, h0], ?_⟩
    have h1 := clip01_nonneg ((h_reco k : ℚ) / (h_truth k : ℚ))
    have h2 := clip01_le_one ((h_reco k : ℚ) / (h_truth k : ℚ))
    have h3 : (0 : ℚ) ≤ (h_truth k : ℚ) := by positivity
    exact div_nonneg (mul_nonneg h1 (by linarith)) h3
  · intro h0
    exact ⟨by simp [efficiency_vs_energy, effBin, h0], by simp [efficiency_vs_energy, errSqBin, h0]⟩

theorem error_radicand_nonneg_witness :
    0 < (![2] : Fin 1 → ℕ) 0 ∧
    (∃ q, (efficiency_vs_energy ![2] (![5] : Fin 1 → ℕ)).2 0 = some q ∧ 0 ≤ q) :=
  ⟨by decide, (error_radicand_nonneg ![2] ![5] 0).1 (by decide)⟩

/-- The flattening `ak.flatten(jagged)` of a per-event variable-length
collection into one flat array. -/
def flattenJagged {β : Type} : List (List β) → List β
  | [] => []
  | c :: cs => c ++ flattenJagged cs

/-- The broadcast `ak.broadcast_arrays(ak.Array(scalars), jagged)`: each
event's scalar value is repeated once per candidate of that event
(`studies_lambda.py` lines 276–277, `studies_kaon_sf.py` lines 194–195). -/
def broadcastScalars {α β : Type} (scalars : List α) (colls : List (List β)) :
    List (List α) :=
  List.zipWith (fun s c => c.map fun _ => s) scalars colls

/-- The flat per-candidate table: each row pairs a flattened broadcast copy
of the parent event's scalar with the candidate value at the same flat index
(`xB_c`, `E_c`, … are parallel flat arrays in the source). -/
def flatten_with_broadcast {α β : Type} (scalars : List α) (colls : List (List β)) :
    List (α × β) :=
  List.zip (flattenJagged (broadcastScalars scalars colls)) (flattenJagged colls)

lemma flattenJagged_length {β : Type} :
    ∀ colls : List (List β), (flattenJagged colls).length = (colls.map List.length).sum
  | [] => rfl
  | c :: cs => by simp [flattenJagged, flattenJagged_length cs]

lemma flatten_with_broadcast_eq {α β : Type} :
    ∀ (scalars : List α) (colls : List (List β)), scalars.length = colls.length →
    flatten_with_broadcast scalars colls =
      flattenJagged (List.zipWith (fun s c => c.map fun x => (s, x)) scalars colls)
  | [], [], _ => rfl
  | [], _ :: _, h => by simp at h
  | _ :: _, [], h => by simp at h
  | s :: ss, c :: cs, h => by
    have hlen : (c.map fun _ => s).length = c.length := List.length_map c _
    have ih := flatten_with_broadcast_eq ss cs (by simpa using h)
    simp only [flatten_with_broadcast, broadcastScalars, List.zipWith_cons_cons,
      flattenJagged] at ih ⊢
    rw [List.zip_append hlen, ih]
    congr 1
    have hz := List.zip_map' (fun _ => s) (fun x => x) c
    simpa using hz

lemma flatten_with_broadcast_length {α β : Type} :
    ∀ (scalars : List α) (colls : List (List β)), scalars.length = colls.length →
    (flatten_with_broadcast scalars colls).length = (colls.map List.length).sum := by
  intro scalars colls h
  rw [flatten_with_broadcast_eq scalars colls h]
  induction scalars generalizing colls with
  | nil =>
    cases colls with
    | nil => rfl
    | cons c cs => simp at h
  | cons s ss ih =>
    cases colls with
    | nil => simp at h
    | cons c cs =>
      simp only [List.zipWith_cons_cons, flattenJagged, List.map_cons, List.sum_cons,
        List.length_append, List.length_map]
      rw [ih cs (by simpa using h)]

/-- C4: the broadcast-and-flatten step emits exactly one row per candidate,
each paired with a copy of its parent event's scalar: the flat table equals
the event-by-event concatenation of `(scalar, candidate)` pairs, its row
count is the sum of the per-event candidate counts, and events with zero
candidates contribute zero rows. -/
theorem flatten_broadcast_spec {α β : Type} (scalars : List α) (colls : List (List β))
    (hlen : scalars.length = colls.length) :
    (flattenJagged colls).length = (colls.map List.length).sum ∧
    flatten_with_broadcast scalars colls =
      flattenJagged (List.zipWith (fun s c => c.map fun x => (s, x)) scalars colls) ∧
    (flatten_with_broadcast scalars colls).length = (colls.map List.length).sum :=
  ⟨flattenJagged_length colls, flatten_with_broadcast_eq scalars colls hlen,
    flatten_with_broadcast_length scalars colls hlen⟩

theorem flatten_broadcast_spec_witness :
    ([10, 20, 30] : List ℤ).length = ([[], [1, 2], [3]] : List (List ℤ)).length ∧
    flatten_with_broadcast ([10, 20, 30] : List ℤ) ([[], [1, 2], [3]] : List (List ℤ))
      = [(20, 1), (20, 2), (30, 3)] ∧
    (flatten_with_broadcast ([10, 20, 30] : List ℤ) ([[], [1, 2], [3]] : List (List ℤ))).length
      = 3 :=
  ⟨by decide, by
    have h := (flatten_broadcast_spec ([10, 20, 30] : List ℤ)
      ([[], [1, 2], [3]] : List (List ℤ)) (by decide)).2.1
    rw [h]; decide, by
    have h := (flatten_broadcast_spec ([10, 20, 30] : List ℤ)
      ([[], [1, 2], [3]] : List (List ℤ)) (by decide)).2.2
    rw [h]; decide⟩

/-- One row of the flat candidate table built per file in
`plot_nlambda_vs_kinematics_all` (`studies_lambda.py` lines 279–296) and
`plot_relerr_kaon_sf_xK_Q2` (`studies_kaon_sf.py` lines 197–208): the derived
momentum-fraction `xK`, the broadcast event `Q²` and the derived `-t`, each
possibly non-finite (`none` stands for NaN or ±Inf, e.g. `xk_from_xb_xl`
yields NaN when its denominator `1 - xL` is not positive). -/
structure Cand where
  xK : Option ℚ
  q2 : Option ℚ
  tneg : Option ℚ
deriving DecidableEq, Repr

/-- The finite-value mask `m = isfinite(xK) & isfinite(Q2_c) & isfinite(tneg)`
(`studies_lambda.py` line 297). -/
def candFinite (cand : Cand) : Bool :=
  cand.xK.isSome && cand.q2.isSome && cand.tneg.isSome

/-- The full selection mask, including the optional `-t < tmax` cut
(`m &= (tneg < tmax)`, line 299; a NaN comparison is false). -/
def candPass (tmax : Option ℚ) (cand : Cand) : Bool :=
  candFinite cand &&
    match tmax, cand.tneg with
    | some tm, some v => decide (v < tm)
    | some _, none => false
    | none, _ => true

/-- The per-event candidate multiplicities `nlam_evt = ak.num(lamE_j, axis=1)`
(`studies_lambda.py` line 257), recorded and appended before any finiteness
masking (line 270) and used as the event weights of the total-yield plot. -/
def nlamCounts (colls : List (List Cand)) : List ℕ := colls.map List.length

/-- The flat per-file candidate table (`ak.flatten` of the candidate
branches, lines 279–284): one row per candidate, finite or not. -/
def flatCands (colls : List (List Cand)) : List Cand := flattenJagged colls

/-- The candidates appended to the plottable table: the flat table filtered
by the explicit mask (`xK[m]`, `Q2_c[m]`, `tneg[m]`, lines 301–304). -/
def selectedCands (tmax : Option ℚ) (colls : List (List Cand)) : List Cand :=
  (flatCands colls).filter (candPass tmax)

lemma length_filter_partition {α : Type} (p : α → Bool) :
    ∀ l : List α, (l.filter p).length + (l.filter fun a => ! p a).length = l.length
  | [] => rfl
  | a :: l => by
    by_cases h : p a = true <;>
      simp [List.filter_cons, h, ← length_filter_partition p l] <;> omega

/-- C7: candidates with non-finite derived quantities appear in the flat
candidate table (whose row count is exactly the sum of the per-event
multiplicities recorded before masking), and are excluded from the binned
aggregation only through the explicit finite-value mask; consequently the
total candidate count and the plottable candidate count are both available
and differ exactly by the number of masked-out rows. -/
theorem finite_mask_retention (colls : List (List Cand)) (tmax : Option ℚ) :
    (nlamCounts colls).sum = (flatCands colls).length ∧
    (∀ cand ∈ flatCands colls, candFinite cand = false →
      cand ∉ selectedCands tmax colls) ∧
    (∀ cand ∈ flatCands colls, candPass tmax cand = true →
      cand ∈ selectedCands tmax colls) ∧
    (selectedCands tmax colls).length
        + ((flatCands colls).filter fun cand => ! candPass tmax cand).length
      = (nlamCounts colls).sum := by
  refine ⟨(flattenJagged_length colls).symm, ?_, ?_, ?_⟩
  · intro cand _ hnf hmem
    have hp := List.of_mem_filter hmem
    simp only [candPass, Bool.and_eq_true] at hp
    rw [hnf] at hp
    exact Bool.noConfusion hp.1
  · intro cand hmem hp
    exact List.mem_filter.mpr ⟨hmem, hp⟩
  · simp only [selectedCands]
    rw [length_filter_partition (candPass tmax) (flatCands colls)]
    exact flattenJagged_length colls

theorem finite_mask_retention_witness :
    (⟨none, some 1, some 1⟩ : Cand) ∈
        flatCands [[⟨some 1, some 2, some 3⟩], [⟨none, some 1, some 1⟩]] ∧
    candFinite (⟨none, some 1, some 1⟩ : Cand) = false ∧
    (⟨none, some 1, some 1⟩ : Cand) ∉
      selectedCands none [[⟨some 1, some 2, some 3⟩], [⟨none, some 1, some 1⟩]] :=
  ⟨by decide, by decide,
    (finite_mask_retention [[⟨some 1, some 2, some 3⟩], [⟨none, some 1, some 1⟩]] none).2.1
      ⟨none, some 1, some 1⟩ (by decide) (by decide)⟩

/-- The column sums `denom = np.sum(M, axis=0)` of the occupancy histogram
`M[ixK, ixB, iQ]` of `plot_relerr_kaon_sf_xK_Q2` (`studies_kaon_sf.py`
line 251); `M` holds counts accumulated by `np.add.at(M, ..., 1.0)`. -/
def migrationDenom {nK nB nQ : ℕ} (M : Fin nK → Fin nB → Fin nQ → ℕ)
    (b : Fin nB) (q : Fin nQ) : ℕ :=
  ∑ k, M k b q

/-- The migration matrix `P` (`studies_kaon_sf.py` lines 252–254):
initialised to zero, and `P[:, ok] = M[:, ok] / denom[ok]` only on the
columns `ok = denom > 0`. -/
def migrationP {nK nB nQ : ℕ} (M : Fin nK → Fin nB → Fin nQ → ℕ)
    (k : Fin nK) (b : Fin nB) (q : Fin nQ) : ℚ :=
  if 0 < migrationDenom M b q then (M k b q : ℚ) / (migrationDenom M b q : ℚ) else 0

/-- C6: every column of the migration matrix with positive occupancy total is
the occupancy divided by that total (and hence sums to 1 over the reco axis),
and every column with zero total is left entirely zero, so no division by
zero ever occurs. -/
theorem migration_columns_normalized {nK nB nQ : ℕ} (M : Fin nK → Fin nB → Fin nQ → ℕ)
    (b : Fin nB) (q : Fin nQ) :
    (0 < migrationDenom M b q →
      (∀ k, migrationP M k b q = (M k b q : ℚ) / (migrationDenom M b q : ℚ)) ∧
      ∑ k, migrationP M k b q = 1) ∧
    (migrationDenom M b q = 0 → ∀ k, migrationP M k b q = 0) := by
  constructor
  · intro hpos
    constructor
    · intro k
      simp [migrationP, hpos]
    · have hcast : (0 : ℚ) < (migrationDenom M b q : ℚ) := by exact_mod_cast hpos
      calc ∑ k, migrationP M k b q
          = ∑ k, (M k b q : ℚ) / (migrationDenom M b q : ℚ) := by
            refine Finset.sum_congr rfl fun k _ => ?_
            simp [migrationP, hpos]
        _ = (∑ k, (M k b q : ℚ)) / (migrationDenom M b q : ℚ) := by
            rw [Finset.sum_div]
        _ = (migrationDenom M b q : ℚ) / (migrationDenom M b q : ℚ) := by
            rw [migrationDenom]; push_cast; rfl
        _ = 1 := div_self hcast.ne'
  · intro h0 k
    simp [migrationP, h0]

theorem migration_columns_normalized_witness :
    0 < migrationDenom (fun k _ _ => if k = (0 : Fin 2) then 1 else 2)
        (0 : Fin 1) (0 : Fin 1) ∧
    ∑ k, migrationP (fun k _ _ => if k = (0 : Fin 2) then 1 else 2)
        k (0 : Fin 1) (0 : Fin 1) = 1 :=
  ⟨by decide,
    (migration_columns_normalized (fun k _ _ => if k = (0 : Fin 2) then 1 else 2)
      (0 : Fin 1) (0 : Fin 1)).1 (by decide) |>.2⟩

end MesonStructure
